import Mathlib

/-!
Verification development for the short-video-maker timeline composition,
caption pagination, render job queue and progress tracking core.
Definitions are shallow embeddings of the TypeScript source
(`src/components/videos/LandscapeVideo.tsx`, `src/short-creator/ShortCreator.ts`,
`src/server/ProgressTracker.ts`); numeric computations use exact rationals.
-/

/-- A word-level caption token as produced by the transcription service. -/
structure Caption where
  text : String
  startMs : ℚ
  endMs : ℚ
deriving DecidableEq

/-- Per-scene audio record (`scene.audio` in `ShortCreator.createShort`). -/
structure SceneAudio where
  url : String
  duration : ℚ
deriving DecidableEq

/-- A processed scene record handed to the Remotion composition. -/
structure Scene where
  captions : List Caption
  video : String
  audio : SceneAudio
deriving DecidableEq

/-- JavaScript `Math.round`: round half toward positive infinity. -/
def jsRound (q : ℚ) : ℤ := ⌊q + 1 / 2⌋

/-- Remotion's `interpolate` with a two-point input range.  The extrapolate
options clamp the input to the range boundary on the corresponding side. -/
def interpolate (x inMin inMax outMin outMax : ℚ)
    (clampLeft clampRight : Bool) : ℚ :=
  let x1 := if clampLeft = true ∧ x < inMin then inMin else x
  let x2 := if clampRight = true ∧ x1 > inMax then inMax else x1
  outMin + (x2 - inMin) / (inMax - inMin) * (outMax - outMin)

/-- The transition kinds of `TransitionEnum`. -/
inductive TransitionKind
  | noTransition
  | fade
  | slide
deriving DecidableEq

/-- Opacity computed by `getTransitionStyle` in `LandscapeVideo`:
`none` yields constant 1; `fade` and `slide` yield
`Math.min(fadeInProgress, fadeOutProgress)` where the entry ramp clamps on
the right only and the exit ramp clamps on the left only. -/
def getTransitionOpacity (transition : TransitionKind)
    (transitionDurationFrames sceneDuration sceneFrame : ℚ) : ℚ :=
  match transition with
  | TransitionKind.noTransition => 1
  | TransitionKind.fade =>
      min (interpolate sceneFrame 0 transitionDurationFrames 0 1 false true)
        (interpolate sceneFrame (sceneDuration - transitionDurationFrames)
          sceneDuration 1 0 true false)
  | TransitionKind.slide =>
      min (interpolate sceneFrame 0 transitionDurationFrames 0 1 false true)
        (interpolate sceneFrame (sceneDuration - transitionDurationFrames)
          sceneDuration 1 0 true false)

/-- `startFrame` of scene `i` in `LandscapeVideo`:
`scenes.slice(0, i).reduce((acc, curr) => acc + curr.audio.duration, 0) * fps`. -/
def startFrame (scenes : List Scene) (fps : ℚ) (i : ℕ) : ℚ :=
  (((scenes.take i).map (fun s => s.audio.duration)).sum) * fps

/-- `durationInFrames` of scene `i` in `LandscapeVideo`:
`scenes.slice(0, i + 1).reduce((acc, curr) => acc + curr.audio.duration, 0) * fps`,
plus `(config.paddingBack / 1000) * fps` when `config.paddingBack` is truthy
and `i` is the last index.  Note the source does not subtract `startFrame`. -/
def durationInFrames (scenes : List Scene) (paddingBack fps : ℚ) (i : ℕ) : ℚ :=
  let base := (((scenes.take (i + 1)).map (fun s => s.audio.duration)).sum) * fps
  if paddingBack ≠ 0 ∧ i = scenes.length - 1 then
    base + paddingBack / 1000 * fps
  else
    base

/-- Active-token test from `LandscapeVideo`:
`frame >= startFrame + (text.startMs / 1000) * fps &&
 frame <= startFrame + (text.endMs / 1000) * fps`. -/
def tokenActive (sceneStart fps : ℚ) (tok : Caption) (frame : ℤ) : Prop :=
  sceneStart + tok.startMs / 1000 * fps ≤ (frame : ℚ) ∧
    (frame : ℚ) ≤ sceneStart + tok.endMs / 1000 * fps

instance (sceneStart fps : ℚ) (tok : Caption) (frame : ℤ) :
    Decidable (tokenActive sceneStart fps tok frame) :=
  inferInstanceAs (Decidable (_ ∧ _))

/-- Two scenes of one second of audio each: the worked counterexample input. -/
def scenes2 : List Scene :=
  [⟨[], "v0", ⟨"a0", 1⟩⟩, ⟨[], "v1", ⟨"a1", 1⟩⟩]

/-- A caption page: start/end bounds in milliseconds and a list of lines,
each a list of tokens. -/
structure CaptionPage where
  startMs : ℚ
  endMs : ℚ
  lines : List (List Caption)
deriving DecidableEq

/-- All tokens of a page, in emission order. -/
def pageTokens (p : CaptionPage) : List Caption := p.lines.flatten

/-- Close a page over the given lines: its bounds are the first token's
`startMs` and the last token's `endMs`. -/
def mkPage (lines : List (List Caption)) : CaptionPage :=
  { startMs := (lines.flatten.head?.map (fun tk => tk.startMs)).getD 0,
    endMs := (lines.flatten.getLast?.map (fun tk => tk.endMs)).getD 0,
    lines := lines }

/-- Accumulated character length of a line. -/
def lineChars (l : List Caption) : ℕ := (l.map (fun tk => tk.text.length)).sum

/-- Paginator walk state: completed pages, completed lines of the current
page, and the current line, all in order. -/
structure PagState where
  pages : List CaptionPage
  curLines : List (List Caption)
  curLine : List Caption
deriving DecidableEq

/-- Modelled from the spec: one step of the caption-paginator walk.  The
paginator `createCaptionPages` lives in `src/components/utils`, which is not
among the provided sources (only its call site in `LandscapeVideo` is);
spec §4.1: accumulate into the current line while
`currentLineCharLength + token.length ≤ lineMaxLength`; a token starts a new
page if the accumulated line count would exceed `lineCount` or the gap from
the previous token's `endMs` exceeds `maxGapMs`. -/
def pagStep (lineMaxLength lineCount : ℕ) (maxGapMs : ℚ)
    (st : PagState) (tok : Caption) : PagState :=
  match st.curLine.getLast? with
  | none =>
      { pages := st.pages, curLines := st.curLines, curLine := [tok] }
  | some prev =>
      if tok.startMs - prev.endMs > maxGapMs then
        { pages := st.pages ++ [mkPage (st.curLines ++ [st.curLine])],
          curLines := [], curLine := [tok] }
      else if lineChars st.curLine + tok.text.length ≤ lineMaxLength then
        { pages := st.pages, curLines := st.curLines,
          curLine := st.curLine ++ [tok] }
      else if lineCount ≤ st.curLines.length + 1 then
        { pages := st.pages ++ [mkPage (st.curLines ++ [st.curLine])],
          curLines := [], curLine := [tok] }
      else
        { pages := st.pages, curLines := st.curLines ++ [st.curLine],
          curLine := [tok] }

/-- Modelled from the spec: `createCaptionPages(tokens, lineMaxLength,
lineCount, maxGapMs)` (spec §4.1), walking the tokens in order and flushing
the trailing partial page at the end. -/
def createCaptionPages (lineMaxLength lineCount : ℕ) (maxGapMs : ℚ)
    (tokens : List Caption) : List CaptionPage :=
  let st := tokens.foldl (pagStep lineMaxLength lineCount maxGapMs) ⟨[], [], []⟩
  match st.curLine with
  | [] => st.pages
  | _ :: _ => st.pages ++ [mkPage (st.curLines ++ [st.curLine])]

/-- All tokens held by a paginator state, in order: tokens of completed
pages, then of completed lines of the current page, then the current line. -/
def stTokens (st : PagState) : List Caption :=
  (st.pages.map pageTokens).flatten ++ st.curLines.flatten ++ st.curLine

/-- A page's bounds agree with its first token's `startMs` and its last
token's `endMs`. -/
def boundsOK (p : CaptionPage) : Prop :=
  (pageTokens p).head?.map (fun tk => tk.startMs) = some p.startMs ∧
    (pageTokens p).getLast?.map (fun tk => tk.endMs) = some p.endMs

/-- Paginator state invariant: an empty current line only occurs in the
pristine state, and every completed page has correct bounds. -/
def goodState (st : PagState) : Prop :=
  (st.curLine = [] → st.curLines = []) ∧ ∀ p ∈ st.pages, boundsOK p

/-- Observable events of the render job queue (`ShortCreator`): a job id is
appended to the queue, its processing begins (it becomes the head being
rendered), or its processing reaches a terminal outcome. -/
inductive QEvent
  | submitted (j : ℕ)
  | began (j : ℕ)
  | terminal (j : ℕ)
deriving DecidableEq

/-- Ids of `submitted` events, in trace order. -/
def submittedIds (t : List QEvent) : List ℕ :=
  t.filterMap fun e => match e with
    | QEvent.submitted j => some j
    | _ => none

/-- Ids of `began` events, in trace order. -/
def beganIds (t : List QEvent) : List ℕ :=
  t.filterMap fun e => match e with
    | QEvent.began j => some j
    | _ => none

/-- Ids of `terminal` events, in trace order. -/
def terminalIds (t : List QEvent) : List ℕ :=
  t.filterMap fun e => match e with
    | QEvent.terminal j => some j
    | _ => none

/-- Small-step semantics of `ShortCreator.addToQueue` / `processQueue`:
`addToQueue` pushes the id and, when the queue just became a singleton (it
was empty), processing of that head begins at once; when `createShort`
settles, the catch/finally block emits the terminal progress event, shifts the
queue and begins the next head if any.  The trace records the events in the
order the single-threaded runtime produces them. -/
inductive QueueRun : List QEvent → List ℕ → Prop
  | init : QueueRun [] []
  | submit (t : List QEvent) (q : List ℕ) (j : ℕ) :
      QueueRun t q → j ∉ submittedIds t →
      QueueRun
        (t ++ [QEvent.submitted j] ++ (if q = [] then [QEvent.began j] else []))
        (q ++ [j])
  | finish (t : List QEvent) (j : ℕ) (rest : List ℕ) :
      QueueRun t (j :: rest) →
      QueueRun
        (t ++ [QEvent.terminal j] ++
          (match rest with
           | [] => []
           | j2 :: _ => [QEvent.began j2]))
        rest

/-- Progress stages of `ProgressTracker.ProgressEvent`. -/
inductive Stage
  | queued
  | generating_audio
  | transcribing
  | fetching_videos
  | composing
  | rendering
  | complete
  | error
deriving DecidableEq

/-- Position of a stage in the documented successful-job order. -/
def stageRank : Stage → ℕ
  | Stage.queued => 0
  | Stage.generating_audio => 1
  | Stage.transcribing => 2
  | Stage.fetching_videos => 3
  | Stage.composing => 4
  | Stage.rendering => 5
  | Stage.complete => 6
  | Stage.error => 7

/-- Whether stage ranks are non-decreasing along a list. -/
def stagesMonotone : List Stage → Bool
  | [] => true
  | [_] => true
  | a :: b :: rest =>
      decide (stageRank a ≤ stageRank b) && stagesMonotone (b :: rest)

/-- A progress event as emitted through `ProgressTracker.updateProgress`. -/
structure PEvent where
  videoId : ℕ
  stage : Stage
  progress : ℤ
  message : String
  err : Option String
deriving DecidableEq

/-- An ordinary (non-error) progress event. -/
def mkEv (vid : ℕ) (st : Stage) (p : ℤ) (msg : String) : PEvent :=
  { videoId := vid, stage := st, progress := p, message := msg, err := none }

/-- `Math.round((index / inputScenes.length) * 70)` from `createShort`. -/
def sceneProgress (i n : ℕ) : ℤ := jsRound ((i : ℚ) / (n : ℚ) * 70)

/-- The per-scene external call at which a job fails, if any. -/
inductive ScenePoint
  | tts
  | normalize
  | transcribe
  | saveMp3
  | findVideo
  | download
deriving DecidableEq

/-- Where a job's processing fails: at a scene's external call, or at the
final render call. -/
inductive FailSite
  | scene (i : ℕ) (p : ScenePoint)
  | render
deriving DecidableEq

/-- A queued job for the pipeline model: its id, its number of scenes, and
the failure the external collaborators will inject (with the thrown error's
message), if any. -/
structure JobSpec where
  id : ℕ
  numScenes : ℕ
  failAt : Option (FailSite × String)
deriving DecidableEq

/-- Progress events emitted while processing scene `i` of `n` in
`createShort`, given the point at which the scene's external calls fail:
`generating_audio` precedes the TTS call, `transcribing` precedes the
transcription call (after audio normalisation), `fetching_videos` precedes
the footage fetch. -/
def scenePointEvents (vid n i : ℕ) (fail : Option ScenePoint) : List PEvent :=
  let ga := mkEv vid Stage.generating_audio (sceneProgress i n)
    ("Generating audio for scene " ++ toString (i + 1) ++ "/" ++ toString n ++ "...")
  let tr := mkEv vid Stage.transcribing (sceneProgress i n + 5)
    ("Transcribing audio for scene " ++ toString (i + 1) ++ "/" ++ toString n ++ "...")
  let fv := mkEv vid Stage.fetching_videos (sceneProgress i n + 10)
    ("Fetching video for scene " ++ toString (i + 1) ++ "/" ++ toString n ++ "...")
  match fail with
  | none => [ga, tr, fv]
  | some ScenePoint.tts => [ga]
  | some ScenePoint.normalize => [ga]
  | some ScenePoint.transcribe => [ga, tr]
  | some ScenePoint.saveMp3 => [ga, tr]
  | some ScenePoint.findVideo => [ga, tr, fv]
  | some ScenePoint.download => [ga, tr, fv]

/-- Kinds of temp artifacts a scene pushes onto `tempFiles`. -/
inductive FileKind
  | wav
  | mp3
  | vid
deriving DecidableEq

/-- A temp artifact, identified by job id, scene index and kind. -/
abbrev TempFile := ℕ × ℕ × FileKind

/-- Temp files scene `i` has pushed onto `tempFiles` by the time the given
call fails (the wav/mp3 paths are pushed after TTS succeeds, before
normalisation; the video path is pushed after the footage search succeeds,
before the download). -/
def sceneFilesCreated (jid i : ℕ) (fail : Option ScenePoint) : List TempFile :=
  match fail with
  | none => [(jid, i, FileKind.wav), (jid, i, FileKind.mp3), (jid, i, FileKind.vid)]
  | some ScenePoint.tts => []
  | some ScenePoint.normalize => [(jid, i, FileKind.wav), (jid, i, FileKind.mp3)]
  | some ScenePoint.transcribe => [(jid, i, FileKind.wav), (jid, i, FileKind.mp3)]
  | some ScenePoint.saveMp3 => [(jid, i, FileKind.wav), (jid, i, FileKind.mp3)]
  | some ScenePoint.findVideo => [(jid, i, FileKind.wav), (jid, i, FileKind.mp3)]
  | some ScenePoint.download => [(jid, i, FileKind.wav), (jid, i, FileKind.mp3), (jid, i, FileKind.vid)]

/-- `queued` event at the top of `createShort`. -/
def queuedEvent (vid : ℕ) : PEvent :=
  mkEv vid Stage.queued 0 "Starting video creation..."

/-- `composing` event after the scene loop. -/
def composingEvent (vid : ℕ) : PEvent :=
  mkEv vid Stage.composing 75 "Composing video with music..."

/-- `rendering` event before the Remotion render call. -/
def renderingEvent (vid : ℕ) : PEvent :=
  mkEv vid Stage.rendering 80 "Rendering final video..."

/-- `complete` event after the render succeeds. -/
def completeEvent (vid : ℕ) : PEvent :=
  mkEv vid Stage.complete 100 "Video creation complete!"

/-- The terminal error event `processQueue` emits from its catch handler,
with the thrown error's message in the `error` field. -/
def errorEvent (vid : ℕ) (msg : String) : PEvent :=
  { videoId := vid, stage := Stage.error, progress := 0,
    message := "Failed to create video", err := some msg }

/-- Events of all `n` scenes when no external call fails. -/
def fullSceneEvents (vid n : ℕ) : List PEvent :=
  (List.range n).flatMap (fun i => scenePointEvents vid n i none)

/-- Temp files of all `n` scenes when no external call fails. -/
def fullSceneFiles (jid n : ℕ) : List TempFile :=
  (List.range n).flatMap (fun i => sceneFilesCreated jid i none)

/-- One run of `ShortCreator.createShort` for a job: the progress events it
emits, the temp files still on disk when it settles, and the message of the
thrown error if it failed.  The purge loop over `tempFiles` sits at the end
of the success path only, so a failing run leaves every file created so far
in place. -/
def createShortRun (spec : JobSpec) : List PEvent × List TempFile × Option String :=
  match spec.failAt with
  | none =>
      (queuedEvent spec.id :: fullSceneEvents spec.id spec.numScenes ++
        [composingEvent spec.id, renderingEvent spec.id, completeEvent spec.id],
       [], none)
  | some (FailSite.render, msg) =>
      (queuedEvent spec.id :: fullSceneEvents spec.id spec.numScenes ++
        [composingEvent spec.id, renderingEvent spec.id],
       fullSceneFiles spec.id spec.numScenes, some msg)
  | some (FailSite.scene k p, msg) =>
      if k < spec.numScenes then
        (queuedEvent spec.id ::
          ((List.range k).flatMap
            (fun i => scenePointEvents spec.id spec.numScenes i none) ++
            scenePointEvents spec.id spec.numScenes k (some p)),
         (List.range k).flatMap (fun i => sceneFilesCreated spec.id i none) ++
           sceneFilesCreated spec.id k (some p),
         some msg)
      else
        (queuedEvent spec.id :: fullSceneEvents spec.id spec.numScenes ++
          [composingEvent spec.id, renderingEvent spec.id, completeEvent spec.id],
         [], none)

/-- Sequential drain of the job queue (`processQueue`): each job's
`createShort` events, followed by the catch handler's error event when the
job failed, then the next job; leftover temp files accumulate. -/
def processQueueRun : List JobSpec → List PEvent × List TempFile
  | [] => ([], [])
  | spec :: rest =>
      let r := createShortRun spec
      let tail := processQueueRun rest
      (r.1 ++
        (match r.2.2 with
         | some m => [errorEvent spec.id m]
         | none => []) ++ tail.1,
       r.2.1 ++ tail.2)

/-- All progress events the queue run emits for one job: its `createShort`
events followed by the catch handler's error event when it failed. -/
def jobEvents (spec : JobSpec) : List PEvent :=
  (createShortRun spec).1 ++
    (match (createShortRun spec).2.2 with
     | some m => [errorEvent spec.id m]
     | none => [])

/-- Job status values returned by `ShortCreator.status`. -/
inductive VideoStatus
  | processing
  | ready
  | failed
deriving DecidableEq

/-- `ShortCreator.status`: `processing` when the id is in the queue,
otherwise `ready` when the rendered artifact exists on disk, otherwise
`failed`. -/
def statusOf (queue : List ℕ) (diskHas : ℕ → Bool) (id : ℕ) : VideoStatus :=
  if id ∈ queue then VideoStatus.processing
  else if diskHas id then VideoStatus.ready
  else VideoStatus.failed

/-- The synthetic event `ProgressTracker.addConnection` writes to a freshly
attached subscriber, before storing the connection. -/
def initialEvent (vid : ℕ) : PEvent :=
  mkEv vid Stage.queued 0 "Connected to progress stream"

/-- Operations on the `ProgressTracker`: attach a subscriber for a video id,
or publish a progress event. -/
inductive TrackerOp
  | addConnection (videoId conn : ℕ)
  | updateProgress (e : PEvent)

/-- Tracker state: registered `(videoId, connection)` pairs in registration
order, and the log of `(connection, event)` writes in the order they were
sent. -/
structure TrackerState where
  conns : List (ℕ × ℕ)
  received : List (ℕ × PEvent)

/-- One `ProgressTracker` operation: `addConnection` first sends the
synthetic `queued` event to the new subscriber and then registers it;
`updateProgress` fans the event out to every subscriber registered for its
video id. -/
def trackerStep (st : TrackerState) (op : TrackerOp) : TrackerState :=
  match op with
  | TrackerOp.addConnection vid c =>
      { conns := st.conns ++ [(vid, c)],
        received := st.received ++ [(c, initialEvent vid)] }
  | TrackerOp.updateProgress e =>
      { conns := st.conns,
        received := st.received ++
          ((st.conns.filter (fun pr => pr.1 == e.videoId)).map
            (fun pr => (pr.2, e))) }

/-- Run a sequence of tracker operations from the empty tracker. -/
def trackerRun (ops : List TrackerOp) : TrackerState :=
  ops.foldl trackerStep ⟨[], []⟩

/-- Events a given connection received, in order. -/
def receivedBy (st : TrackerState) (c : ℕ) : List PEvent :=
  (st.received.filter (fun pr => pr.1 == c)).map (fun pr => pr.2)

/-- Three scenes of one second of audio each. -/
def scenes3 : List Scene :=
  [⟨[], "v0", ⟨"a0", 1⟩⟩, ⟨[], "v1", ⟨"a1", 1⟩⟩, ⟨[], "v2", ⟨"a2", 1⟩⟩]

/-- The spec's worked token example: gap of 200 ms between the tokens. -/
def demoTokens : List Caption := [⟨"hi", 0, 300⟩, ⟨"there", 500, 900⟩]

/-- A concrete queue trace: job 0 submitted and begun, job 1 submitted while
job 0 renders, job 0 terminal, then job 1 begins. -/
def demoTrace : List QEvent :=
  [QEvent.submitted 0, QEvent.began 0, QEvent.submitted 1,
    QEvent.terminal 0, QEvent.began 1]

/-- A two-scene job whose transcription call fails on its second scene. -/
def jobA : JobSpec :=
  ⟨0, 2, some (FailSite.scene 1 ScenePoint.transcribe, "whisper failed")⟩

/-- A one-scene job with no injected failure. -/
def jobB : JobSpec := ⟨1, 1, none⟩

/-- Sum of mapped audio durations over `take (i+1)` splits off element `i`. -/
theorem sum_take_succ_dur (scenes : List Scene) (i : ℕ) (hi : i < scenes.length) :
    ((scenes.take (i + 1)).map (fun s => s.audio.duration)).sum =
      ((scenes.take i).map (fun s => s.audio.duration)).sum +
        (scenes.get ⟨i, hi⟩).audio.duration := by
  have hm : i < (scenes.map (fun s => s.audio.duration)).length := by simpa using hi
  have h1 := List.sum_take_succ (scenes.map (fun s => s.audio.duration)) i hm
  rw [← List.map_take, ← List.map_take] at h1
  rw [h1]
  congr 1
  simp [List.get_eq_getElem, List.getElem_map]

/-- C1 counterexample: with two one-second scenes at 30 fps, the code's
`durationInFrames` for scene 1 is 60, not the claimed
`fps × Σ(audio.duration for scenes 0..1) − startFrame` = 30: the source never
subtracts `startFrame`. -/
theorem c1_counterexample :
    durationInFrames scenes2 0 30 1 ≠
      (((scenes2.take 2).map (fun s => s.audio.duration)).sum) * 30 -
        startFrame scenes2 30 1 := by
  norm_num [durationInFrames, startFrame, scenes2]

/-- C1 (amended): scene `i`'s `startFrame` is `fps × Σ(audio.duration for
scenes 0..i-1)` as claimed, but its `durationInFrames` (without padding) is
`fps × Σ(audio.duration for scenes 0..i)` with no `startFrame` subtraction,
i.e. its own audio duration in frames plus its `startFrame`. -/
theorem c1_amended (scenes : List Scene) (fps : ℚ) (i : ℕ)
    (hi : i < scenes.length) :
    startFrame scenes fps i =
      (((scenes.take i).map (fun s => s.audio.duration)).sum) * fps ∧
    durationInFrames scenes 0 fps i =
      startFrame scenes fps i + (scenes.get ⟨i, hi⟩).audio.duration * fps := by
  refine ⟨rfl, ?_⟩
  simp only [durationInFrames, startFrame]
  rw [if_neg (by simp)]
  rw [sum_take_succ_dur scenes i hi]
  ring

/-- Witness for `c1_amended` at scene 1 of the two-scene example. -/
theorem c1_amended_witness :
    startFrame scenes2 30 1 =
      (((scenes2.take 1).map (fun s => s.audio.duration)).sum) * 30 ∧
    durationInFrames scenes2 0 30 1 =
      startFrame scenes2 30 1 +
        (scenes2.get ⟨1, by norm_num [scenes2]⟩).audio.duration * 30 :=
  c1_amended scenes2 30 1 (by norm_num [scenes2])

/-- C2 counterexample: two one-second scenes, 30 fps, paddingBack 1000 ms —
the last scene's `durationInFrames` is 90, not its own audio duration in
frames plus `fps × paddingBack/1000` = 60. -/
theorem c2_counterexample :
    durationInFrames scenes2 1000 30 1 ≠
      (scenes2.get ⟨1, by norm_num [scenes2]⟩).audio.duration * 30 +
        1000 / 1000 * 30 := by
  norm_num [durationInFrames, scenes2]

/-- C2 (amended): with a non-zero `paddingBack`, the last scene's
`durationInFrames` equals `fps × (Σ all audio durations) + fps ×
paddingBack/1000` — extended by the padding beyond the cumulative end of all
audio rather than beyond its own audio; moreover any earlier scene whose
preceding scenes have positive total audio also exceeds its own audio length,
so the last scene is not the only one. -/
theorem c2_amended (scenes : List Scene) (paddingBack fps : ℚ)
    (hne : scenes ≠ []) (hpad : paddingBack ≠ 0) :
    durationInFrames scenes paddingBack fps (scenes.length - 1) =
      ((scenes.map (fun s => s.audio.duration)).sum) * fps +
        paddingBack / 1000 * fps ∧
    ∀ i, ∀ hlt : i + 1 < scenes.length, 0 < fps →
      0 < ((scenes.take i).map (fun s => s.audio.duration)).sum →
      (scenes.get ⟨i, by omega⟩).audio.duration * fps <
        durationInFrames scenes paddingBack fps i := by
  constructor
  · have hlen : 0 < scenes.length := List.length_pos.mpr hne
    simp only [durationInFrames]
    rw [if_pos ⟨hpad, trivial⟩]
    have h2 : scenes.length - 1 + 1 = scenes.length := by omega
    rw [h2, List.take_length]
  · intro i hlt hfps hpos
    have hi : i < scenes.length := by omega
    have hne1 : i ≠ scenes.length - 1 := by omega
    simp only [durationInFrames]
    rw [if_neg (by tauto)]
    rw [sum_take_succ_dur scenes i hi]
    nlinarith

/-- Witness for `c2_amended` on three one-second scenes with 1500 ms
padding at 30 fps. -/
theorem c2_amended_witness :
    (durationInFrames scenes3 1500 30 (scenes3.length - 1) =
      ((scenes3.map (fun s => s.audio.duration)).sum) * 30 +
        1500 / 1000 * 30) ∧
    (scenes3.get ⟨1, by norm_num [scenes3]⟩).audio.duration * 30 <
      durationInFrames scenes3 1500 30 1 := by
  have h := c2_amended scenes3 1500 30 (by simp [scenes3]) (by norm_num)
  exact ⟨h.1, h.2 1 (by norm_num [scenes3]) (by norm_num)
    (by norm_num [scenes3])⟩

/-- C3 counterexample: token with `startMs = 80` at 30 fps in a scene
starting at frame 0: the exact start is frame 2.4, `round` gives frame 2,
and at frame 2 the token is not active — the claimed activation at
`sceneStartFrame + round(startMs × fps/1000)` fails. -/
theorem c3_counterexample :
    ¬ tokenActive 0 30 ⟨"hi", 80, 1000⟩ (jsRound ((80 : ℚ) / 1000 * 30)) := by
  have h : jsRound ((80 : ℚ) / 1000 * 30) = 2 := by
    norm_num [jsRound, Int.floor_eq_iff]
  rw [h]
  simp only [tokenActive, not_and_or]
  left
  norm_num

/-- C3 (amended): the token is active at
`sceneStartFrame + ⌈startMs × fps/1000⌉` (ceiling, not round — provided that
frame still lies within the token's span), and is not active at
`sceneStartFrame + round(endMs × fps/1000) + 1`. -/
theorem c3_amended (s : ℤ) (fps : ℚ) (tok : Caption)
    (h : (⌈tok.startMs / 1000 * fps⌉ : ℚ) ≤ tok.endMs / 1000 * fps) :
    tokenActive (s : ℚ) fps tok (s + ⌈tok.startMs / 1000 * fps⌉) ∧
    ¬ tokenActive (s : ℚ) fps tok (s + jsRound (tok.endMs / 1000 * fps) + 1) := by
  constructor
  · constructor
    · push_cast
      have := Int.le_ceil (tok.startMs / 1000 * fps)
      linarith
    · push_cast
      linarith
  · rintro ⟨-, h2⟩
    have hfl := Int.sub_one_lt_floor (tok.endMs / 1000 * fps + 1 / 2)
    simp only [jsRound] at h2
    push_cast at h2
    linarith

/-- Witness for `c3_amended` on the counterexample token. -/
theorem c3_amended_witness :
    ((⌈(80 : ℚ) / 1000 * 30⌉ : ℚ) ≤ (1000 : ℚ) / 1000 * 30) ∧
    (tokenActive ((0 : ℤ) : ℚ) 30 ⟨"hi", 80, 1000⟩
        ((0 : ℤ) + ⌈(80 : ℚ) / 1000 * 30⌉) ∧
      ¬ tokenActive ((0 : ℤ) : ℚ) 30 ⟨"hi", 80, 1000⟩
        ((0 : ℤ) + jsRound ((1000 : ℚ) / 1000 * 30) + 1)) := by
  have hc : ⌈(80 : ℚ) / 1000 * 30⌉ ≤ (30 : ℤ) := Int.ceil_le.mpr (by norm_num)
  have hcq : ((⌈(80 : ℚ) / 1000 * 30⌉ : ℚ)) ≤ (30 : ℚ) := by exact_mod_cast hc
  have h30 : (1000 : ℚ) / 1000 * 30 = 30 := by norm_num
  have hh : ((⌈(80 : ℚ) / 1000 * 30⌉ : ℚ) ≤ (1000 : ℚ) / 1000 * 30) := by
    rw [h30]; exact hcq
  exact ⟨hh, c3_amended 0 30 ⟨"hi", 80, 1000⟩ hh⟩

/-- The entry ramp of the fade transition equals the clamped linear ramp. -/
theorem entry_eq (tdf f : ℚ) (htdf : 0 < tdf) :
    interpolate f 0 tdf 0 1 false true = min (f / tdf) 1 := by
  simp only [interpolate, Bool.false_eq_true, false_and, if_false, true_and,
    ite_false]
  split_ifs with h
  · rw [min_eq_right (le_of_lt ((one_lt_div htdf).mpr h))]
    field_simp
  · rw [min_eq_left ((div_le_one htdf).mpr (not_lt.mp h))]
    ring

/-- The exit ramp of the fade transition equals the clamped linear ramp. -/
theorem exit_eq (tdf sd f : ℚ) (htdf : 0 < tdf) (hf : f ≤ sd) :
    interpolate f (sd - tdf) sd 1 0 true false = min ((sd - f) / tdf) 1 := by
  simp only [interpolate, Bool.false_eq_true, false_and, if_false, true_and,
    ite_false]
  split_ifs with h
  · have h1 : 1 < (sd - f) / tdf := by rw [lt_div_iff₀ htdf]; linarith
    rw [min_eq_right (le_of_lt h1)]
    field_simp
  · have h1 : (sd - f) / tdf ≤ 1 := by rw [div_le_one htdf]; linarith
    rw [min_eq_left h1]
    have hne : sd - (sd - tdf) = tdf := by ring
    rw [hne]
    field_simp
    ring

/-- C8: for the fade transition, at every scene-local frame in
`[0, sceneDuration]` the opacity equals the minimum of the entry ramp and
the exit ramp, clamped to `[0, 1]`; the `none` transition yields constant
opacity 1. -/
theorem c8_transition_opacity :
    (∀ tdf sd f : ℚ, 0 < tdf → 0 ≤ f → f ≤ sd →
      getTransitionOpacity TransitionKind.fade tdf sd f =
        max 0 (min 1 (min (f / tdf) ((sd - f) / tdf)))) ∧
    (∀ tdf sd f : ℚ,
      getTransitionOpacity TransitionKind.noTransition tdf sd f = 1) := by
  refine ⟨?_, fun _ _ _ => rfl⟩
  intro tdf sd f htdf hf0 hfsd
  have ha : 0 ≤ f / tdf := div_nonneg hf0 (le_of_lt htdf)
  have hb : 0 ≤ (sd - f) / tdf := div_nonneg (by linarith) (le_of_lt htdf)
  have hcomb : min (min (f / tdf) 1) (min ((sd - f) / tdf) 1) =
      min 1 (min (f / tdf) ((sd - f) / tdf)) := by
    rw [min_min_min_comm, min_self, min_comm]
  have hmax : max 0 (min 1 (min (f / tdf) ((sd - f) / tdf))) =
      min 1 (min (f / tdf) ((sd - f) / tdf)) :=
    max_eq_right (le_min (by norm_num) (le_min ha hb))
  simp only [getTransitionOpacity]
  rw [entry_eq tdf f htdf, exit_eq tdf sd f htdf hfsd, hcomb, hmax]

/-- Witness for `c8_transition_opacity` at frame 7 of a 300-frame scene with
a 15-frame transition window. -/
theorem c8_transition_opacity_witness :
    (0 : ℚ) < 15 ∧ (0 : ℚ) ≤ 7 ∧ (7 : ℚ) ≤ 300 ∧
    getTransitionOpacity TransitionKind.fade 15 300 7 =
      max 0 (min 1 (min ((7 : ℚ) / 15) (((300 : ℚ) - 7) / 15))) :=
  ⟨by norm_num, by norm_num, by norm_num,
    c8_transition_opacity.1 15 300 7 (by norm_num) (by norm_num) (by norm_num)⟩

/-- C9: the status query returns exactly one of processing/ready/failed:
`processing` iff the id is in the queue, else `ready` iff the artifact
exists, else `failed` — an id never submitted and with no artifact reports
`failed`. -/
theorem c9_status_trichotomy (queue : List ℕ) (diskHas : ℕ → Bool) (id : ℕ) :
    (statusOf queue diskHas id = VideoStatus.processing ↔ id ∈ queue) ∧
    (statusOf queue diskHas id = VideoStatus.ready ↔
      id ∉ queue ∧ diskHas id = true) ∧
    (statusOf queue diskHas id = VideoStatus.failed ↔
      id ∉ queue ∧ diskHas id = false) := by
  by_cases hq : id ∈ queue <;> by_cases hd : diskHas id = true <;>
    simp_all [statusOf]

/-- Witness for `c9_status_trichotomy`: an id never submitted and with no
artifact on disk reports `failed`. -/
theorem c9_status_trichotomy_witness :
    statusOf [] (fun _ => false) 5 = VideoStatus.failed :=
  (c9_status_trichotomy [] (fun _ => false) 5).2.2.mpr ⟨by simp, rfl⟩

/-- Binding a constant function over `range n` yields `n` flattened copies. -/
theorem flatMap_const_eq {α : Type} (n : ℕ) (l : List α) :
    (List.range n).flatMap (fun _ => l) = (List.replicate n l).flatten := by
  induction n with
  | zero => simp
  | succ k ih =>
      rw [List.range_succ, List.replicate_succ']
      simp [List.flatMap_append, ih]

/-- C7 counterexample: a successful two-scene job emits
queued, GA, TR, FV, GA, TR, FV, composing, rendering, complete — the
sequence decreases at the second scene's `generating_audio`, so the stage
sequence is not non-decreasing for jobs with two scenes. -/
theorem c7_counterexample :
    stagesMonotone
      ((createShortRun ⟨0, 2, none⟩).1.map (fun e => e.stage)) = false := by
  decide

/-- Stages of a fully processed scene, in emission order. -/
theorem scene_events_stages (vid n i : ℕ) :
    (scenePointEvents vid n i none).map (fun e => e.stage) =
      [Stage.generating_audio, Stage.transcribing, Stage.fetching_videos] := rfl

/-- C7 (amended): a successful job's stage sequence is `queued`, then the
block generating_audio/transcribing/fetching_videos repeated once per scene,
then composing, rendering, complete; it is non-decreasing only for jobs with
at most one scene. -/
theorem c7_amended (vid n : ℕ) :
    ((createShortRun ⟨vid, n, none⟩).1.map (fun e => e.stage)) =
      Stage.queued ::
        ((List.replicate n
          [Stage.generating_audio, Stage.transcribing,
            Stage.fetching_videos]).flatten ++
         [Stage.composing, Stage.rendering, Stage.complete]) ∧
    (n ≤ 1 → stagesMonotone
      ((createShortRun ⟨vid, n, none⟩).1.map (fun e => e.stage)) = true) := by
  have hshape : ((createShortRun ⟨vid, n, none⟩).1.map (fun e => e.stage)) =
      Stage.queued ::
        ((List.replicate n
          [Stage.generating_audio, Stage.transcribing,
            Stage.fetching_videos]).flatten ++
         [Stage.composing, Stage.rendering, Stage.complete]) := by
    simp only [createShortRun, fullSceneEvents]
    simp only [List.map_cons, List.map_append, List.map_flatMap]
    rw [show (fun i => (scenePointEvents vid n i none).map (fun e => e.stage)) =
      (fun _ => [Stage.generating_audio, Stage.transcribing,
        Stage.fetching_videos])
      from funext (fun i => scene_events_stages vid n i)]
    rw [flatMap_const_eq]
    rfl
  refine ⟨hshape, ?_⟩
  intro hn
  rw [hshape]
  interval_cases n <;> decide

/-- Witness for `c7_amended` on a single-scene job. -/
theorem c7_amended_witness :
    (1 : ℕ) ≤ 1 ∧
    stagesMonotone
      ((createShortRun ⟨0, 1, none⟩).1.map (fun e => e.stage)) = true :=
  ⟨by norm_num, (c7_amended 0 1).2 (by norm_num)⟩

/-- Queue-run events of a cons decompose into the head job's events
followed by the rest. -/
theorem events_cons (s : JobSpec) (rest : List JobSpec) :
    (processQueueRun (s :: rest)).1 = jobEvents s ++ (processQueueRun rest).1 := by
  simp [processQueueRun, jobEvents, List.append_assoc]

/-- Leftover files of a cons decompose likewise. -/
theorem files_cons (s : JobSpec) (rest : List JobSpec) :
    (processQueueRun (s :: rest)).2 =
      (createShortRun s).2.1 ++ (processQueueRun rest).2 := rfl

/-- Queue-run events distribute over list append. -/
theorem events_append (xs ys : List JobSpec) :
    (processQueueRun (xs ++ ys)).1 =
      (processQueueRun xs).1 ++ (processQueueRun ys).1 := by
  induction xs with
  | nil => simp [processQueueRun]
  | cons s rest ih => simp [events_cons, ih]

/-- Leftover files distribute over list append. -/
theorem files_append (xs ys : List JobSpec) :
    (processQueueRun (xs ++ ys)).2 =
      (processQueueRun xs).2 ++ (processQueueRun ys).2 := by
  induction xs with
  | nil => simp [processQueueRun]
  | cons s rest ih => simp [files_cons, ih]

/-- Every per-scene event carries the job's video id. -/
theorem scenePointEvents_videoId (vid n i : ℕ) (fp : Option ScenePoint)
    (e : PEvent) (he : e ∈ scenePointEvents vid n i fp) : e.videoId = vid := by
  rcases fp with - | p
  · simp only [scenePointEvents, List.mem_cons, List.mem_singleton,
      List.not_mem_nil, or_false] at he
    rcases he with rfl | rfl | rfl <;> rfl
  · cases p <;>
      simp only [scenePointEvents, List.mem_cons, List.mem_singleton,
        List.not_mem_nil, or_false] at he <;>
      (rcases he with rfl | rfl | rfl <;> rfl)

/-- No per-scene event has the error stage. -/
theorem scenePointEvents_stage (vid n i : ℕ) (fp : Option ScenePoint)
    (e : PEvent) (he : e ∈ scenePointEvents vid n i fp) :
    e.stage ≠ Stage.error := by
  rcases fp with - | p
  · simp only [scenePointEvents, List.mem_cons, List.mem_singleton,
      List.not_mem_nil, or_false] at he
    rcases he with rfl | rfl | rfl <;> simp [mkEv]
  · cases p <;>
      simp only [scenePointEvents, List.mem_cons, List.mem_singleton,
        List.not_mem_nil, or_false] at he <;>
      (rcases he with rfl | rfl | rfl <;> simp [mkEv])

/-- Every event of a `createShort` run carries the job's id. -/
theorem createShortRun_videoId (spec : JobSpec) (e : PEvent)
    (he : e ∈ (createShortRun spec).1) : e.videoId = spec.id := by
  rcases hspec : spec.failAt with - | ⟨site, msg⟩
  · simp only [createShortRun, hspec, List.mem_cons, List.mem_append,
      List.mem_singleton, List.not_mem_nil, or_false, fullSceneEvents,
      List.mem_flatMap, List.mem_range] at he
    rcases he with (rfl | ⟨i, -, hi⟩) | rfl | rfl | rfl
    · rfl
    · exact scenePointEvents_videoId _ _ _ _ _ hi
    · rfl
    · rfl
    · rfl
  · rcases site with ⟨k, p⟩ | -
    · by_cases hk : k < spec.numScenes
      · simp only [createShortRun, hspec, if_pos hk, List.mem_cons,
          List.mem_append, List.mem_flatMap, List.mem_range] at he
        rcases he with rfl | ⟨i, -, hi⟩ | hi
        · rfl
        · exact scenePointEvents_videoId _ _ _ _ _ hi
        · exact scenePointEvents_videoId _ _ _ _ _ hi
      · simp only [createShortRun, hspec, if_neg hk, List.mem_cons,
          List.mem_append, List.mem_singleton, List.not_mem_nil, or_false,
          fullSceneEvents, List.mem_flatMap, List.mem_range] at he
        rcases he with (rfl | ⟨i, -, hi⟩) | rfl | rfl | rfl
        · rfl
        · exact scenePointEvents_videoId _ _ _ _ _ hi
        · rfl
        · rfl
        · rfl
    · simp only [createShortRun, hspec, List.mem_cons, List.mem_append,
        List.mem_singleton, List.not_mem_nil, or_false, fullSceneEvents,
        List.mem_flatMap, List.mem_range] at he
      rcases he with (rfl | ⟨i, -, hi⟩) | rfl | rfl
      · rfl
      · exact scenePointEvents_videoId _ _ _ _ _ hi
      · rfl
      · rfl

/-- A `createShort` run itself never emits an error-stage event (the error
event comes from the `processQueue` catch handler). -/
theorem createShortRun_no_error (spec : JobSpec) (e : PEvent)
    (he : e ∈ (createShortRun spec).1) : e.stage ≠ Stage.error := by
  rcases hspec : spec.failAt with - | ⟨site, msg⟩
  · simp only [createShortRun, hspec, List.mem_cons, List.mem_append,
      List.mem_singleton, List.not_mem_nil, or_false, fullSceneEvents,
      List.mem_flatMap, List.mem_range] at he
    rcases he with (rfl | ⟨i, -, hi⟩) | rfl | rfl | rfl
    · simp [queuedEvent, mkEv]
    · exact scenePointEvents_stage _ _ _ _ _ hi
    · simp [composingEvent, mkEv]
    · simp [renderingEvent, mkEv]
    · simp [completeEvent, mkEv]
  · rcases site with ⟨k, p⟩ | -
    · by_cases hk : k < spec.numScenes
      · simp only [createShortRun, hspec, if_pos hk, List.mem_cons,
          List.mem_append, List.mem_flatMap, List.mem_range] at he
        rcases he with rfl | ⟨i, -, hi⟩ | hi
        · simp [queuedEvent, mkEv]
        · exact scenePointEvents_stage _ _ _ _ _ hi
        · exact scenePointEvents_stage _ _ _ _ _ hi
      · simp only [createShortRun, hspec, if_neg hk, List.mem_cons,
          List.mem_append, List.mem_singleton, List.not_mem_nil, or_false,
          fullSceneEvents, List.mem_flatMap, List.mem_range] at he
        rcases he with (rfl | ⟨i, -, hi⟩) | rfl | rfl | rfl
        · simp [queuedEvent, mkEv]
        · exact scenePointEvents_stage _ _ _ _ _ hi
        · simp [composingEvent, mkEv]
        · simp [renderingEvent, mkEv]
        · simp [completeEvent, mkEv]
    · simp only [createShortRun, hspec, List.mem_cons, List.mem_append,
        List.mem_singleton, List.not_mem_nil, or_false, fullSceneEvents,
        List.mem_flatMap, List.mem_range] at he
      rcases he with (rfl | ⟨i, -, hi⟩) | rfl | rfl
      · simp [queuedEvent, mkEv]
      · exact scenePointEvents_stage _ _ _ _ _ hi
      · simp [composingEvent, mkEv]
      · simp [renderingEvent, mkEv]

/-- A run with an injected failure settles with that failure's message. -/
theorem createShortRun_err (spec : JobSpec) (site : FailSite) (msg : String)
    (hfail : spec.failAt = some (site, msg))
    (hscene : ∀ k p, site = FailSite.scene k p → k < spec.numScenes) :
    (createShortRun spec).2.2 = some msg := by
  rcases site with ⟨k, p⟩ | -
  · simp [createShortRun, hfail, if_pos (hscene k p rfl)]
  · simp [createShortRun, hfail]

/-- A run with no injected failure emits its `complete` event. -/
theorem completeEvent_mem (spec : JobSpec) (hnone : spec.failAt = none) :
    completeEvent spec.id ∈ (createShortRun spec).1 := by
  simp [createShortRun, hnone]

/-- Every event a job contributes, the catch handler's error event
included, carries the job's id. -/
theorem jobEvents_videoId (spec : JobSpec) (e : PEvent)
    (he : e ∈ jobEvents spec) : e.videoId = spec.id := by
  simp only [jobEvents, List.mem_append] at he
  rcases he with he | he
  · exact createShortRun_videoId spec e he
  · rcases herr : (createShortRun spec).2.2 with - | m <;> rw [herr] at he
    · simp at he
    · simp only [List.mem_singleton] at he
      rw [he]
      rfl

/-- A job with a different id contributes no error event for the target. -/
theorem filter_jobEvents_ne (j : JobSpec) (tid : ℕ) (hne : j.id ≠ tid) :
    (jobEvents j).filter
      (fun e => decide (e.stage = Stage.error) && decide (e.videoId = tid)) = [] := by
  rw [List.filter_eq_nil_iff]
  intro e he
  have hv := jobEvents_videoId j e he
  simp [hv, hne]

/-- A failing job contributes exactly one error event, carrying the causing
message. -/
theorem filter_jobEvents_self (spec : JobSpec) (msg : String)
    (herr : (createShortRun spec).2.2 = some msg) :
    (jobEvents spec).filter
      (fun e => decide (e.stage = Stage.error) && decide (e.videoId = spec.id)) =
      [errorEvent spec.id msg] := by
  rw [jobEvents, herr, List.filter_append]
  have h1 : (createShortRun spec).1.filter
      (fun e => decide (e.stage = Stage.error) && decide (e.videoId = spec.id)) = [] := by
    rw [List.filter_eq_nil_iff]
    intro e he
    have hs := createShortRun_no_error spec e he
    simp [hs]
  rw [h1]
  simp [errorEvent]

/-- Jobs whose ids all differ from the target contribute no error events
for it. -/
theorem filter_processQueueRun_ne (jobs : List JobSpec) (tid : ℕ)
    (h : ∀ j ∈ jobs, j.id ≠ tid) :
    (processQueueRun jobs).1.filter
      (fun e => decide (e.stage = Stage.error) && decide (e.videoId = tid)) = [] := by
  induction jobs with
  | nil => simp [processQueueRun]
  | cons s rest ih =>
      rw [events_cons, List.filter_append,
        filter_jobEvents_ne s tid (h s (List.mem_cons_self s rest)),
        ih (fun j hj => h j (List.mem_cons_of_mem s hj))]
      rfl

/-- A queued job's events appear in the whole queue run. -/
theorem mem_events_of_mem (jobs : List JobSpec) (j : JobSpec) (hj : j ∈ jobs)
    (e : PEvent) (he : e ∈ jobEvents j) : e ∈ (processQueueRun jobs).1 := by
  induction jobs with
  | nil => simp at hj
  | cons s rest ih =>
      rw [events_cons, List.mem_append]
      rcases List.mem_cons.mp hj with rfl | hj2
      · exact Or.inl he
      · exact Or.inr (ih hj2)

/-- C6 (amended): when a job's external call fails, exactly one terminal
error event carrying the causing message is emitted for it, every later
submitted job still runs (a failure-free one reaches `complete`), and the
queue advances — but the failing job's temp artifacts are NOT purged: they
remain in the leftover set (the purge loop runs only on the success path). -/
theorem c6_amended (pre post : List JobSpec) (spec : JobSpec)
    (site : FailSite) (msg : String)
    (hfail : spec.failAt = some (site, msg))
    (hscene : ∀ k p, site = FailSite.scene k p → k < spec.numScenes)
    (hpre : ∀ j ∈ pre, j.id ≠ spec.id)
    (hpost : ∀ j ∈ post, j.id ≠ spec.id) :
    ((processQueueRun (pre ++ spec :: post)).1.filter
        (fun e => decide (e.stage = Stage.error) && decide (e.videoId = spec.id)))
      = [errorEvent spec.id msg] ∧
    (∀ j ∈ post, j.failAt = none →
      completeEvent j.id ∈ (processQueueRun (pre ++ spec :: post)).1) ∧
    (processQueueRun (pre ++ spec :: post)).2 =
      (processQueueRun pre).2 ++ (createShortRun spec).2.1 ++
        (processQueueRun post).2 := by
  have herr := createShortRun_err spec site msg hfail hscene
  refine ⟨?_, ?_, ?_⟩
  · rw [events_append, events_cons, List.filter_append, List.filter_append,
      filter_processQueueRun_ne pre spec.id hpre,
      filter_jobEvents_self spec msg herr,
      filter_processQueueRun_ne post spec.id hpost]
    rfl
  · intro j hj hjn
    rw [events_append, events_cons]
    have hmem : completeEvent j.id ∈ (processQueueRun post).1 :=
      mem_events_of_mem post j hj (completeEvent j.id)
        (by rw [jobEvents]; exact List.mem_append_left _ (completeEvent_mem j hjn))
    simp [hmem]
  · rw [files_append, files_cons, List.append_assoc]

/-- Witness for `c6_amended`: job A fails transcription on its second
scene, job B still completes, and A's five temp files remain. -/
theorem c6_amended_witness :
    (jobA.failAt =
      some (FailSite.scene 1 ScenePoint.transcribe, "whisper failed")) ∧
    ((processQueueRun [jobA, jobB]).1.filter
        (fun e => decide (e.stage = Stage.error) && decide (e.videoId = jobA.id)))
      = [errorEvent jobA.id "whisper failed"] ∧
    completeEvent jobB.id ∈ (processQueueRun [jobA, jobB]).1 ∧
    (processQueueRun [jobA, jobB]).2 =
      (processQueueRun []).2 ++ (createShortRun jobA).2.1 ++
        (processQueueRun [jobB]).2 := by
  have h := c6_amended [] [jobB] jobA (FailSite.scene 1 ScenePoint.transcribe)
    "whisper failed" rfl
    (by intro k p hkp; cases hkp; norm_num [jobA])
    (by intro j hj; simp at hj)
    (by intro j hj; simp at hj; rw [hj]; simp [jobA, jobB])
  exact ⟨rfl, h.1, h.2.1 jobB (by simp) rfl, h.2.2⟩

/-- C6 counterexample: job A fails at its second scene's transcription; the
queue run ends with A's five temp files still on disk — they are not
purged, contradicting the claimed cleanup on failure. -/
theorem c6_counterexample :
    (processQueueRun [jobA, jobB]).2 =
      [(0, 0, FileKind.wav), (0, 0, FileKind.mp3), (0, 0, FileKind.vid),
        (0, 1, FileKind.wav), (0, 1, FileKind.mp3)] ∧
    ([(0, 0, FileKind.wav), (0, 0, FileKind.mp3), (0, 0, FileKind.vid),
        (0, 1, FileKind.wav), (0, 1, FileKind.mp3)] : List TempFile) ≠ [] :=
  ⟨rfl, by simp⟩

/-- A page closed over lines with at least one token has correct bounds. -/
theorem mkPage_boundsOK (L : List (List Caption)) (h : L.flatten ≠ []) :
    boundsOK (mkPage L) := by
  constructor
  · rcases List.exists_cons_of_ne_nil h with ⟨a, l, hL⟩
    simp [boundsOK, pageTokens, mkPage, hL]
  · rcases List.eq_nil_or_concat' L.flatten with hL | ⟨l, a, hL⟩
    · exact absurd hL h
    · simp [boundsOK, pageTokens, mkPage, hL, List.getLast?_concat]

/-- One paginator step appends exactly the consumed token to the state's
token sequence: nothing is dropped, duplicated or reordered. -/
theorem pagStep_tokens (a b : ℕ) (c : ℚ) (st : PagState) (tok : Caption)
    (hgood : st.curLine = [] → st.curLines = []) :
    stTokens (pagStep a b c st tok) = stTokens st ++ [tok] := by
  rcases hcl : st.curLine.getLast? with - | prev
  · have hnil : st.curLine = [] := List.getLast?_eq_none_iff.mp hcl
    have hnil2 : st.curLines = [] := hgood hnil
    simp [pagStep, hcl, stTokens, hnil, hnil2]
  · simp only [pagStep, hcl]
    split_ifs with h1 h2 h3 <;>
      simp [stTokens, pageTokens, mkPage, List.map_append,
        List.flatten_append, List.append_assoc]

/-- One paginator step preserves the state invariant. -/
theorem pagStep_good (a b : ℕ) (c : ℚ) (st : PagState) (tok : Caption)
    (h : goodState st) : goodState (pagStep a b c st tok) := by
  rcases hcl : st.curLine.getLast? with - | prev
  · refine ⟨?_, ?_⟩
    · intro habs
      simp [pagStep, hcl] at habs
    · intro p hp
      have : p ∈ st.pages := by simpa [pagStep, hcl] using hp
      exact h.2 p this
  · have hne : st.curLine ≠ [] := by
      intro habs
      rw [habs] at hcl
      simp at hcl
    have hflat : (st.curLines ++ [st.curLine]).flatten ≠ [] := by
      simp only [List.flatten_append, List.flatten_cons, List.flatten_nil,
        List.append_nil]
      intro habs
      exact hne (List.append_eq_nil.mp habs).2
    simp only [pagStep, hcl]
    split_ifs with h1 h2 h3 <;> refine ⟨?_, ?_⟩ <;>
      first
        | (intro habs; simp at habs)
        | (intro p hp
           simp only [List.mem_append, List.mem_singleton] at hp
           rcases hp with hp | rfl
           · exact h.2 p hp
           · exact mkPage_boundsOK _ hflat)
        | (intro p hp; exact h.2 p hp)

/-- Folding the paginator over a token list appends exactly that list to
the state's token sequence and preserves the invariant. -/
theorem pag_foldl (a b : ℕ) (c : ℚ) (toks : List Caption) :
    ∀ st : PagState, goodState st →
      stTokens (toks.foldl (pagStep a b c) st) = stTokens st ++ toks ∧
      goodState (toks.foldl (pagStep a b c) st) := by
  induction toks with
  | nil => intro st h; exact ⟨by simp, h⟩
  | cons tok toks ih =>
      intro st h
      have hstep := pagStep_good a b c st tok h
      have htok := pagStep_tokens a b c st tok h.1
      rcases ih (pagStep a b c st tok) hstep with ⟨h1, h2⟩
      refine ⟨?_, by simpa using h2⟩
      rw [List.foldl_cons, h1, htok, List.append_assoc]
      rfl

/-- C4: concatenating the tokens of all lines of all pages, in order,
reproduces the input token sequence exactly; every page's startMs/endMs
equal its first/last token's bounds; the empty token list yields the empty
page list.  (Paginator modelled from spec §4.1: its source file
`src/components/utils` is not among the provided sources.) -/
theorem c4_pagination_coverage (lineMax lineCount : ℕ) (maxGap : ℚ)
    (tokens : List Caption) :
    ((createCaptionPages lineMax lineCount maxGap tokens).map pageTokens).flatten
      = tokens ∧
    (∀ p ∈ createCaptionPages lineMax lineCount maxGap tokens, boundsOK p) ∧
    createCaptionPages lineMax lineCount maxGap [] = [] := by
  have hinit : goodState (⟨[], [], []⟩ : PagState) := ⟨fun _ => rfl, by simp⟩
  rcases pag_foldl lineMax lineCount maxGap tokens ⟨[], [], []⟩ hinit with ⟨h1, h2⟩
  have h1' : stTokens (tokens.foldl (pagStep lineMax lineCount maxGap) ⟨[], [], []⟩)
      = tokens := by
    rw [h1]; simp [stTokens]
  set st := tokens.foldl (pagStep lineMax lineCount maxGap) ⟨[], [], []⟩ with hst
  refine ⟨?_, ?_, rfl⟩
  · rcases hcl : st.curLine with - | ⟨x, xs⟩
    · have hcl2 : st.curLines = [] := h2.1 hcl
      have : createCaptionPages lineMax lineCount maxGap tokens = st.pages := by
        simp [createCaptionPages, ← hst, hcl]
      rw [this]
      rw [stTokens, hcl, hcl2] at h1'
      simpa using h1'
    · have : createCaptionPages lineMax lineCount maxGap tokens =
          st.pages ++ [mkPage (st.curLines ++ [st.curLine])] := by
        simp [createCaptionPages, ← hst, hcl]
      rw [this]
      rw [stTokens] at h1'
      simp only [List.map_append, List.map_cons, List.map_nil,
        List.flatten_append, List.flatten_cons, List.flatten_nil,
        List.append_nil, pageTokens, mkPage]
      simpa [List.flatten_append, List.append_assoc] using h1'
  · intro p hp
    rcases hcl : st.curLine with - | ⟨x, xs⟩
    · have : createCaptionPages lineMax lineCount maxGap tokens = st.pages := by
        simp [createCaptionPages, ← hst, hcl]
      rw [this] at hp
      exact h2.2 p hp
    · have : createCaptionPages lineMax lineCount maxGap tokens =
          st.pages ++ [mkPage (st.curLines ++ [st.curLine])] := by
        simp [createCaptionPages, ← hst, hcl]
      rw [this] at hp
      simp only [List.mem_append, List.mem_singleton] at hp
      rcases hp with hp | rfl
      · exact h2.2 p hp
      · apply mkPage_boundsOK
        rw [hcl]
        simp

/-- The spec's worked example paginates to a single page of a single line. -/
theorem demo_pages_eq :
    createCaptionPages 30 1 1000 demoTokens =
      [mkPage [[⟨"hi", 0, 300⟩, ⟨"there", 500, 900⟩]]] := by
  simp only [createCaptionPages, demoTokens, List.foldl_cons, List.foldl_nil,
    pagStep, lineChars]
  norm_num [show ("hi".length = 2) from rfl, show ("there".length = 5) from rfl]

/-- Witness for `c4_pagination_coverage` on the spec's worked example. -/
theorem c4_pagination_coverage_witness :
    ((createCaptionPages 30 1 1000 demoTokens).map pageTokens).flatten
      = demoTokens ∧
    boundsOK (mkPage [[⟨"hi", 0, 300⟩, ⟨"there", 500, 900⟩]]) :=
  ⟨(c4_pagination_coverage 30 1 1000 demoTokens).1,
    (c4_pagination_coverage 30 1 1000 demoTokens).2.1
      (mkPage [[⟨"hi", 0, 300⟩, ⟨"there", 500, 900⟩]])
      (by rw [demo_pages_eq]; exact List.mem_singleton_self _)⟩

/-- Submitted ids distribute over trace append. -/
theorem submittedIds_append (t u : List QEvent) :
    submittedIds (t ++ u) = submittedIds t ++ submittedIds u :=
  List.filterMap_append t u _

/-- Began ids distribute over trace append. -/
theorem beganIds_append (t u : List QEvent) :
    beganIds (t ++ u) = beganIds t ++ beganIds u :=
  List.filterMap_append t u _

/-- Terminal ids distribute over trace append. -/
theorem terminalIds_append (t u : List QEvent) :
    terminalIds (t ++ u) = terminalIds t ++ terminalIds u :=
  List.filterMap_append t u _

/-- State invariant of the queue semantics: the submission order is the
termination order followed by the pending queue, and the jobs that have
begun are exactly the terminated ones plus the current head. -/
theorem queueRun_state (t : List QEvent) (q : List ℕ) (h : QueueRun t q) :
    submittedIds t = terminalIds t ++ q ∧
      beganIds t = terminalIds t ++ q.take 1 := by
  induction h with
  | init => exact ⟨rfl, rfl⟩
  | submit t q j hrun hfresh ih =>
      rcases ih with ⟨ih1, ih2⟩
      by_cases hq : q = []
      · subst hq
        simp only [if_pos rfl]
        rw [submittedIds_append, submittedIds_append, beganIds_append,
          beganIds_append, terminalIds_append, terminalIds_append]
        constructor
        · simp only [ih1]
          simp [submittedIds, terminalIds]
        · simp only [ih2]
          simp [beganIds, terminalIds, submittedIds]
      · rw [if_neg hq]
        rw [submittedIds_append, submittedIds_append, beganIds_append,
          beganIds_append, terminalIds_append, terminalIds_append]
        constructor
        · simp only [ih1]
          simp [submittedIds, terminalIds, List.append_assoc]
        · simp only [ih2]
          have htake : (q ++ [j]).take 1 = q.take 1 :=
            List.take_append_of_le_length
              (Nat.one_le_iff_ne_zero.mpr (by simpa using hq))
          rw [htake]
          simp [beganIds, terminalIds, submittedIds]
  | finish t j rest hrun ih =>
      rcases ih with ⟨ih1, ih2⟩
      rcases rest with - | ⟨j2, r⟩
      · rw [submittedIds_append, submittedIds_append, beganIds_append,
          beganIds_append, terminalIds_append, terminalIds_append]
        constructor
        · simp only [ih1]
          simp [submittedIds, terminalIds, List.append_assoc]
        · simp only [ih2]
          simp [beganIds, terminalIds]
      · rw [submittedIds_append, submittedIds_append, beganIds_append,
          beganIds_append, terminalIds_append, terminalIds_append]
        constructor
        · simp only [ih1]
          simp [submittedIds, terminalIds, List.append_assoc]
        · simp only [ih2]
          simp [beganIds, terminalIds, List.append_assoc]

/-- Prefix invariant: every prefix of a reachable trace satisfies a relaxed
form of the state invariant (mid-step prefixes may lack the head's `began`
event). -/
theorem queueRun_take (t : List QEvent) (q : List ℕ) (h : QueueRun t q) :
    ∀ n, ∃ p : List ℕ,
      submittedIds (t.take n) = terminalIds (t.take n) ++ p ∧
      (beganIds (t.take n) = terminalIds (t.take n) ++ p.take 1 ∨
       beganIds (t.take n) = terminalIds (t.take n)) := by
  induction h with
  | init =>
      intro n
      exact ⟨[], by simp [submittedIds, terminalIds],
        Or.inr (by simp [beganIds, terminalIds])⟩
  | submit t q j hrun hfresh ih =>
      intro n
      rcases queueRun_state t q hrun with ⟨hs1, hs2⟩
      rcases le_or_lt n t.length with hn | hn
      · have h1 : (t ++ [QEvent.submitted j] ++
            (if q = [] then [QEvent.began j] else [])).take n = t.take n := by
          rw [List.append_assoc, List.take_append_of_le_length hn]
        rw [h1]
        exact ih n
      · have htt : t.take n = t := List.take_of_length_le (le_of_lt hn)
        have h1 : (t ++ [QEvent.submitted j] ++
            (if q = [] then [QEvent.began j] else [])).take n =
            t ++ ([QEvent.submitted j] ++
              (if q = [] then [QEvent.began j] else [])).take (n - t.length) := by
          rw [List.append_assoc, List.take_append_eq_append_take, htt]
        rw [h1]
        by_cases hq : q = []
        · subst hq
          rw [if_pos rfl]
          rcases hsub : n - t.length with - | - | k2
          · omega
          · have h2 : ([QEvent.submitted j] ++ [QEvent.began j]).take 1 =
                [QEvent.submitted j] := rfl
            rw [h2, submittedIds_append, beganIds_append, terminalIds_append]
            refine ⟨[j], ?_, Or.inr ?_⟩
            · simp only [hs1]
              simp [submittedIds, terminalIds]
            · simp only [hs2]
              simp [beganIds, terminalIds, submittedIds]
          · have h2 : ([QEvent.submitted j] ++ [QEvent.began j]).take (k2 + 2) =
                [QEvent.submitted j] ++ [QEvent.began j] :=
              List.take_of_length_le (by simp)
            rw [h2, submittedIds_append, beganIds_append, terminalIds_append]
            refine ⟨[j], ?_, Or.inl ?_⟩
            · simp only [hs1]
              simp [submittedIds, terminalIds, beganIds]
            · simp only [hs2]
              simp [beganIds, terminalIds, submittedIds]
        · rw [if_neg hq]
          have h2 : ([QEvent.submitted j] ++ ([] : List QEvent)).take (n - t.length) =
              [QEvent.submitted j] := by
            rw [List.append_nil]
            exact List.take_of_length_le (by simp; omega)
          rw [h2, submittedIds_append, beganIds_append, terminalIds_append]
          refine ⟨q ++ [j], ?_, Or.inl ?_⟩
          · simp only [hs1]
            simp [submittedIds, terminalIds, List.append_assoc]
          · simp only [hs2]
            have htake : (q ++ [j]).take 1 = q.take 1 :=
              List.take_append_of_le_length
                (Nat.one_le_iff_ne_zero.mpr (by simpa using hq))
            rw [htake]
            simp [beganIds, terminalIds, submittedIds]
  | finish t j rest hrun ih =>
      rcases rest with - | ⟨j2, r⟩ <;> intro n <;>
        rcases queueRun_state t _ hrun with ⟨hs1, hs2⟩ <;>
        rcases le_or_lt n t.length with hn | hn
      · have h1 : (t ++ [QEvent.terminal j] ++ ([] : List QEvent)).take n =
            t.take n := by
          rw [List.append_assoc, List.take_append_of_le_length hn]
        rw [h1]
        exact ih n
      · have htt : t.take n = t := List.take_of_length_le (le_of_lt hn)
        have h1 : (t ++ [QEvent.terminal j] ++ ([] : List QEvent)).take n =
            t ++ [QEvent.terminal j] := by
          rw [List.append_nil, List.take_append_eq_append_take, htt]
          congr 1
          exact List.take_of_length_le (by simp; omega)
        rw [h1, submittedIds_append, beganIds_append, terminalIds_append]
        refine ⟨[], ?_, Or.inr ?_⟩
        · simp only [hs1]
          simp [submittedIds, terminalIds]
        · simp only [hs2]
          simp [beganIds, terminalIds]
      · have h1 : (t ++ [QEvent.terminal j] ++ [QEvent.began j2]).take n =
            t.take n := by
          rw [List.append_assoc, List.take_append_of_le_length hn]
        rw [h1]
        exact ih n
      · have htt : t.take n = t := List.take_of_length_le (le_of_lt hn)
        have h1 : (t ++ [QEvent.terminal j] ++ [QEvent.began j2]).take n =
            t ++ ([QEvent.terminal j] ++ [QEvent.began j2]).take (n - t.length) := by
          rw [List.append_assoc, List.take_append_eq_append_take, htt]
        rw [h1]
        rcases hsub : n - t.length with - | - | k2
        · omega
        · have h2 : ([QEvent.terminal j] ++ [QEvent.began j2]).take 1 =
              [QEvent.terminal j] := rfl
          rw [h2, submittedIds_append, beganIds_append, terminalIds_append]
          refine ⟨j2 :: r, ?_, Or.inr ?_⟩
          · simp only [hs1]
            simp [submittedIds, terminalIds, List.append_assoc]
          · simp only [hs2]
            simp [beganIds, terminalIds]
        · have h2 : ([QEvent.terminal j] ++ [QEvent.began j2]).take (k2 + 2) =
              [QEvent.terminal j] ++ [QEvent.began j2] :=
            List.take_of_length_le (by simp)
          rw [h2, submittedIds_append, beganIds_append, terminalIds_append]
          refine ⟨j2 :: r, ?_, Or.inl ?_⟩
          · simp only [hs1]
            simp [submittedIds, terminalIds, List.append_assoc]
          · simp only [hs2]
            simp [beganIds, terminalIds, List.append_assoc]

/-- Submitted ids of a trace split at any prefix boundary. -/
theorem submittedIds_take_append (t : List QEvent) (n : ℕ) :
    submittedIds t = submittedIds (t.take n) ++ submittedIds (t.drop n) := by
  conv_lhs => rw [← List.take_append_drop n t]
  exact submittedIds_append _ _

/-- A job submitted within a prefix is submitted within any longer prefix. -/
theorem mem_submitted_take_mono {t : List QEvent} {n m : ℕ} (hnm : n ≤ m)
    {x : ℕ} (hx : x ∈ submittedIds (t.take n)) :
    x ∈ submittedIds (t.take m) := by
  have h0 : t.take n = (t.take m).take n := by
    rw [List.take_take, min_eq_left hnm]
  rw [h0] at hx
  rw [submittedIds_take_append (t.take m) n]
  exact List.mem_append_left _ hx

/-- Only submitted jobs ever begin processing. -/
theorem began_subset_submitted (t : List QEvent) (q : List ℕ) (h : QueueRun t q)
    (n : ℕ) {x : ℕ} (hx : x ∈ beganIds (t.take n)) :
    x ∈ submittedIds (t.take n) := by
  rcases queueRun_take t q h n with ⟨p, hp1, hp2⟩
  rw [hp1]
  rcases hp2 with hp2 | hp2
  · rw [hp2] at hx
    rcases List.mem_append.mp hx with hx | hx
    · exact List.mem_append_left _ hx
    · exact List.mem_append_right _ (List.mem_of_mem_take hx)
  · rw [hp2] at hx
    exact List.mem_append_left _ hx

/-- C5: jobs are processed strictly FIFO with concurrency 1: in every
reachable trace, if A was submitted at a moment when B was not yet
submitted, then whenever B has begun processing, A has already emitted its
terminal event; and at every moment at most one job has begun without
having terminated. -/
theorem c5_queue_fifo (t : List QEvent) (q : List ℕ) (h : QueueRun t q) :
    (∀ n0 n A B,
      A ∈ submittedIds (t.take n0) → B ∉ submittedIds (t.take n0) →
      B ∈ beganIds (t.take n) → A ∈ terminalIds (t.take n)) ∧
    (∀ n, (beganIds (t.take n)).length ≤ (terminalIds (t.take n)).length + 1) := by
  constructor
  · intro n0 n A B hA hB hBb
    rcases le_or_lt n n0 with hn | hn
    · exact absurd
        (mem_submitted_take_mono hn (began_subset_submitted t q h n hBb)) hB
    · have h0 : (t.take n).take n0 = t.take n0 := by
        rw [List.take_take, min_eq_left (le_of_lt hn)]
      have hsplit : submittedIds (t.take n) =
          submittedIds (t.take n0) ++ submittedIds ((t.take n).drop n0) := by
        rw [← h0]
        exact submittedIds_take_append (t.take n) n0
      rcases queueRun_take t q h n with ⟨p, hp1, hp2⟩
      have heq : submittedIds (t.take n0) ++ submittedIds ((t.take n).drop n0) =
          terminalIds (t.take n) ++ p := by
        rw [← hsplit, hp1]
      rcases List.append_eq_append_iff.mp heq with ⟨w, hw1, -⟩ | ⟨c, hc1, hc2⟩
      · rw [hw1]
        exact List.mem_append_left _ hA
      · have hBt : B ∈ terminalIds (t.take n) ++ p.take 1 := by
          rcases hp2 with hp2 | hp2
          · rw [hp2] at hBb; exact hBb
          · rw [hp2] at hBb; exact List.mem_append_left _ hBb
        rcases List.mem_append.mp hBt with hBt | hBt
        · exact absurd (by rw [hc1]; exact List.mem_append_left _ hBt) hB
        · rcases p with - | ⟨p0, pr⟩
          · simp at hBt
          · have hBp0 : B = p0 := by simpa using hBt
            rcases c with - | ⟨c0, cr⟩
            · rw [List.append_nil] at hc1
              rw [← hc1]
              exact hA
            · have hp0c0 : p0 = c0 := by
                have := hc2
                simp only [List.cons_append] at this
                exact (List.cons.injEq _ _ _ _ ▸ this).1
              exact absurd
                (by rw [hc1, hBp0, hp0c0]
                    exact List.mem_append_right _ (List.mem_cons_self c0 cr)) hB
  · intro n
    rcases queueRun_take t q h n with ⟨p, -, hp2⟩
    rcases hp2 with hp2 | hp2
    · rw [hp2, List.length_append]
      have : (p.take 1).length ≤ 1 := by
        rw [List.length_take]
        omega
      omega
    · rw [hp2]
      omega

/-- The demo trace is reachable: submit 0, submit 1 mid-render, finish 0,
begin 1. -/
theorem demoTrace_run : QueueRun demoTrace [1] := by
  have h1 := QueueRun.submit [] [] 0 QueueRun.init (by decide)
  simp only [List.nil_append, if_pos rfl] at h1
  have h2 := QueueRun.submit _ _ 1 h1 (by decide)
  simp only [if_neg (by decide : ¬([0] : List ℕ) = []), List.append_nil] at h2
  have h3 := QueueRun.finish _ 0 [1] h2
  simpa [demoTrace] using h3

/-- Witness for `c5_queue_fifo` on the demo trace. -/
theorem c5_queue_fifo_witness :
    (0 : ℕ) ∈ submittedIds (demoTrace.take 1) ∧
    (1 : ℕ) ∉ submittedIds (demoTrace.take 1) ∧
    (1 : ℕ) ∈ beganIds (demoTrace.take 5) ∧
    (0 : ℕ) ∈ terminalIds (demoTrace.take 5) ∧
    (beganIds (demoTrace.take 5)).length ≤
      (terminalIds (demoTrace.take 5)).length + 1 := by
  refine ⟨by decide, by decide, by decide, ?_, ?_⟩
  · exact (c5_queue_fifo demoTrace [1] demoTrace_run).1 1 5 0 1
      (by decide) (by decide) (by decide)
  · exact (c5_queue_fifo demoTrace [1] demoTrace_run).2 5

/-- Tracker operations only append to the write log. -/
theorem trackerStep_received (st : TrackerState) (op : TrackerOp) :
    ∃ u, (trackerStep st op).received = st.received ++ u := by
  cases op with
  | addConnection vid c => exact ⟨_, rfl⟩
  | updateProgress e => exact ⟨_, rfl⟩

/-- Folding tracker operations only appends to the write log. -/
theorem trackerFold_received (ops : List TrackerOp) :
    ∀ st : TrackerState, ∃ u, (ops.foldl trackerStep st).received = st.received ++ u := by
  induction ops with
  | nil => intro st; exact ⟨[], by simp⟩
  | cons op ops ih =>
      intro st
      rcases trackerStep_received st op with ⟨u1, hu1⟩
      rcases ih (trackerStep st op) with ⟨u2, hu2⟩
      exact ⟨u1 ++ u2, by rw [List.foldl_cons, hu2, hu1, List.append_assoc]⟩

/-- C10: `addConnection` immediately writes the synthetic
queued/0/"Connected to progress stream" event to the new subscriber —
whatever progress updates happened before (the job may be mid-render or
already finished) and whatever follows, the first event the subscriber
receives is that synthetic `queued` event. -/
theorem c10_initial_event (ops1 ops2 : List TrackerOp) (vid c : ℕ)
    (hfresh : ∀ pr ∈ (trackerRun ops1).received, pr.1 ≠ c) :
    (trackerRun (ops1 ++ [TrackerOp.addConnection vid c])).received =
      (trackerRun ops1).received ++ [(c, initialEvent vid)] ∧
    (receivedBy
        (trackerRun (ops1 ++ TrackerOp.addConnection vid c :: ops2)) c).head?
      = some (initialEvent vid) := by
  constructor
  · simp [trackerRun, List.foldl_append, trackerStep]
  · have hrun : trackerRun (ops1 ++ TrackerOp.addConnection vid c :: ops2) =
        ops2.foldl trackerStep
          (trackerStep (trackerRun ops1) (TrackerOp.addConnection vid c)) := by
      simp [trackerRun, List.foldl_append]
    rcases trackerFold_received ops2
        (trackerStep (trackerRun ops1) (TrackerOp.addConnection vid c)) with ⟨u, hu⟩
    rw [hrun, receivedBy, hu]
    have hstep : (trackerStep (trackerRun ops1)
        (TrackerOp.addConnection vid c)).received =
        (trackerRun ops1).received ++ [(c, initialEvent vid)] := rfl
    rw [hstep, List.append_assoc, List.filter_append]
    have hnil : (trackerRun ops1).received.filter (fun pr => pr.1 == c) = [] := by
      rw [List.filter_eq_nil_iff]
      intro pr hpr
      simpa using hfresh pr hpr
    rw [hnil]
    simp

/-- Witness for `c10_initial_event`: a subscriber attaching after the job's
`complete` event still receives the synthetic queued event first. -/
theorem c10_initial_event_witness :
    (∀ pr ∈ (trackerRun [TrackerOp.updateProgress (completeEvent 7)]).received,
      pr.1 ≠ 42) ∧
    (receivedBy
        (trackerRun ([TrackerOp.updateProgress (completeEvent 7)] ++
          TrackerOp.addConnection 7 42 ::
            [TrackerOp.updateProgress (queuedEvent 7)])) 42).head?
      = some (initialEvent 7) := by
  refine ⟨by decide, ?_⟩
  exact (c10_initial_event [TrackerOp.updateProgress (completeEvent 7)]
    [TrackerOp.updateProgress (queuedEvent 7)] 7 42 (by decide)).2
